import Mathlib

/-!
Verification of the todo-with-labels repository layer.

The development shallowly embeds the repository code:
* the pure row-folding algorithm `fold_entities` (src/repositories/todo.rs),
* the relational backend `TodoRepositoryForDb` / `LabelRepositoryForDb`,
  modelled as pure state transformers over an explicit database state,
* the in-memory backend `TodoRepositoryForMemory` / `LabelRepositoryForMemory`,
  modelled over an association list standing for the `HashMap` behind the lock,
* the request-validation gate `ValidatedJson` (src/handlers.rs).

Rust `i32` ids are modelled as `Int` (no claim depends on 32-bit overflow),
`Option`/`Result` map to `Option`/`Except`, and a Rust panic (an `unwrap`
of `None`) is modelled by returning `none` from the embedded function.
-/

namespace RustWebapp

/-- Entity `Label` from src/repositories/label.rs: a stored label row. -/
structure Label where
  id : Int
  name : String
deriving Repr, DecidableEq

/-- Row type `TodoWithLabelFromRow` from src/repositories/todo.rs: one row of
the LEFT-OUTER-JOIN query, with nullable label columns. -/
structure TodoWithLabelFromRow where
  id : Int
  text : String
  completed : Bool
  label_id : Option Int
  label_name : Option String
deriving Repr, DecidableEq

/-- Base row type `TodoFromRow` from src/repositories/todo.rs. -/
structure TodoFromRow where
  id : Int
  text : String
  completed : Bool
deriving Repr, DecidableEq

/-- Aggregate `TodoEntity` from src/repositories/todo.rs. -/
structure TodoEntity where
  id : Int
  text : String
  completed : Bool
  labels : List Label
deriving Repr, DecidableEq

/-- Command `CreateTodo` from src/repositories/todo.rs. -/
structure CreateTodo where
  text : String
  labels : List Int
deriving Repr, DecidableEq

/-- Command `UpdateTodo` from src/repositories/todo.rs; absent fields are `none`. -/
structure UpdateTodo where
  text : Option String
  completed : Option Bool
  labels : Option (List Int)
deriving Repr, DecidableEq

/-- Command `CreateLabel` from src/repositories/label.rs. -/
structure CreateLabel where
  name : String
deriving Repr, DecidableEq

/-- Error enum `RepositoryError`. `Unexpected` and `NotFound` appear in the
`repositories` module file; the `Duplicate` variant is the one constructed as
`RepositoryError::Duplicate(label.id)` in src/repositories/label.rs and named
by the spec's error taxonomy. -/
inductive RepositoryError where
  | Unexpected (detail : String)
  | NotFound (id : Int)
  | Duplicate (id : Int)
deriving Repr, DecidableEq

deriving instance DecidableEq for Except

/-! ## fold_entities (src/repositories/todo.rs, lines 47-96)

The Rust function iterates over the rows; for each row it first scans the
accumulated entities (`result.iter_mut()`) for one with the same todo id and,
on a hit, pushes `Label { id: row.label_id.unwrap(), name: row.label_name.unwrap() }`
— panicking if either field is null.  If no entity matches it appends a new
entity seeded with one label (when `label_id.is_some()`, also unwrapping
`label_name`) or with no labels.  A panic is modelled as `none`. -/

/-- Inner `while let Some(todo) = todos.next()` loop of `fold_entities`:
scan the accumulated entities for the row's todo id.  Result:
`none` = panic (null label field unwrapped on a hit);
`some none` = no entity with this id;
`some (some acc)` = label pushed onto the first matching entity. -/
def pushLabel : List TodoEntity → TodoWithLabelFromRow → Option (Option (List TodoEntity))
  | [], _ => some none
  | todo :: rest, row =>
    if todo.id = row.id then
      match row.label_id, row.label_name with
      | some lid, some lname =>
        some (some ({ todo with labels := todo.labels ++ [⟨lid, lname⟩] } :: rest))
      | _, _ => none
    else
      (pushLabel rest row).map (Option.map (todo :: ·))

/-- Seed label list of a fresh entity in `fold_entities`: `vec![Label {...}]`
when `row.label_id.is_some()` (unwrapping `label_name`, `none` = panic),
else `vec![]`. -/
def seedLabels (row : TodoWithLabelFromRow) : Option (List Label) :=
  match row.label_id with
  | none => some []
  | some lid =>
    match row.label_name with
    | some lname => some [⟨lid, lname⟩]
    | none => none

/-- Outer `'outer: while let Some(row) = rows.next()` loop of `fold_entities`
with the accumulated `result` made explicit. -/
def foldEntitiesAux : List TodoEntity → List TodoWithLabelFromRow → Option (List TodoEntity)
  | acc, [] => some acc
  | acc, row :: rows =>
    match pushLabel acc row with
    | none => none
    | some (some acc') => foldEntitiesAux acc' rows
    | some none =>
      match seedLabels row with
      | none => none
      | some ls => foldEntitiesAux (acc ++ [⟨row.id, row.text, row.completed, ls⟩]) rows

/-- `fold_entities` from src/repositories/todo.rs; `none` models a panic. -/
def fold_entities (rows : List TodoWithLabelFromRow) : Option (List TodoEntity) :=
  foldEntitiesAux [] rows

/-! ## Specification-side grouping

`groupRows` is written from the spec's words (section 4.4): aggregates appear
in first-seen order of todo id; an aggregate's label list collects the
label-carrying rows of its id in row order; null label fields contribute
nothing. -/

/-- The label carried by a join row, if its label columns are non-null. -/
def rowLabel (r : TodoWithLabelFromRow) : Option Label :=
  match r.label_id, r.label_name with
  | some lid, some lname => some ⟨lid, lname⟩
  | _, _ => none

/-- All labels carried by rows of todo id `i`, in row order. -/
def labelsFor (rows : List TodoWithLabelFromRow) (i : Int) : List Label :=
  rows.filterMap (fun r => if r.id = i then rowLabel r else none)

/-- Rows that are the first occurrence of their todo id (`seen` = ids already
encountered). -/
def firstRowsAux (seen : List Int) : List TodoWithLabelFromRow → List TodoWithLabelFromRow
  | [] => []
  | r :: rest =>
    if r.id ∈ seen then firstRowsAux seen rest
    else r :: firstRowsAux (r.id :: seen) rest

/-- Rows that are the first occurrence of their todo id. -/
def firstRows (rows : List TodoWithLabelFromRow) : List TodoWithLabelFromRow :=
  firstRowsAux [] rows

/-- Spec-side grouping: one aggregate per distinct todo id, in first-seen
order, carrying all labels of that id. -/
def groupRows (rows : List TodoWithLabelFromRow) : List TodoEntity :=
  (firstRows rows).map (fun r => ⟨r.id, r.text, r.completed, labelsFor rows r.id⟩)

/-- Join rows have their two label columns null or non-null together (a LEFT
OUTER JOIN materializes both columns of `labels` from the same row). -/
abbrev RowsPaired (rows : List TodoWithLabelFromRow) : Prop :=
  ∀ r ∈ rows, r.label_id.isSome ↔ r.label_name.isSome

/-- Every row whose todo id already occurred earlier carries a non-null label
column (true of LEFT-OUTER-JOIN output: a todo produces a null-label row only
when it has no associations, i.e. exactly one row). -/
abbrev DupsCarryLabels (rows : List TodoWithLabelFromRow) : Prop :=
  rows.Pairwise (fun a b => a.id = b.id → b.label_id.isSome)

/-! ## The in-memory backend (test_utils modules)

The `HashMap<i32, T>` behind `Arc<RwLock<...>>` is modelled as an association
list whose operations mirror the map semantics (`insert` replaces the value
under an existing key, `len` counts entries).  The lock is not modelled: every
repository operation runs atomically under it, so each operation is one pure
state transformer. -/

abbrev MemStore (α : Type) := List (Int × α)

/-- `HashMap::get`. -/
def memGet {α : Type} (store : MemStore α) (id : Int) : Option α :=
  (store.find? fun p => p.1 == id).map Prod.snd

/-- `HashMap::insert`: replace the value under an existing key, else add the
pair. -/
def memInsert {α : Type} (store : MemStore α) (id : Int) (v : α) : MemStore α :=
  if store.any fun p => p.1 == id then
    store.map fun p => if p.1 == id then (id, v) else p
  else store ++ [(id, v)]

/-- `HashMap::remove`: `some` of the shrunk store when the key was present. -/
def memRemove {α : Type} (store : MemStore α) (id : Int) : Option (MemStore α) :=
  if store.any fun p => p.1 == id then
    some (store.filter fun p => !(p.1 == id))
  else none

/-- `TodoRepositoryForMemory::create` (src/repositories/todo.rs, lines
469-475): the id is `(store.len() + 1) as i32` and the stored entity is
`TodoEntity::new(id, payload.text)`, i.e. `completed = false` and
`labels = vec![]`; the command's `labels` field is not read. -/
def TodoRepositoryForMemory.create (store : MemStore TodoEntity) (payload : CreateTodo) :
    MemStore TodoEntity × TodoEntity :=
  let id : Int := store.length + 1
  let todo : TodoEntity := ⟨id, payload.text, false, []⟩
  (memInsert store id todo, todo)

/-- `TodoRepositoryForMemory::find`. -/
def TodoRepositoryForMemory.find (store : MemStore TodoEntity) (id : Int) :
    Except RepositoryError TodoEntity :=
  match memGet store id with
  | some todo => .ok todo
  | none => .error (.NotFound id)

/-- `TodoRepositoryForMemory::update` (lines 494-509): `text` and `completed`
fall back to the stored values via `unwrap_or`, while the stored entity is
rebuilt with `labels: vec![]`; the command's `labels` field is not read. -/
def TodoRepositoryForMemory.update (store : MemStore TodoEntity) (id : Int)
    (payload : UpdateTodo) : MemStore TodoEntity × Except RepositoryError TodoEntity :=
  match memGet store id with
  | none => (store, .error (.NotFound id))
  | some todo =>
    let t : TodoEntity :=
      ⟨id, payload.text.getD todo.text, payload.completed.getD todo.completed, []⟩
    (memInsert store id t, .ok t)

/-- `TodoRepositoryForMemory::delete` (lines 517-521). -/
def TodoRepositoryForMemory.delete (store : MemStore TodoEntity) (id : Int) :
    MemStore TodoEntity × Except RepositoryError Unit :=
  match memRemove store id with
  | none => (store, .error (.NotFound id))
  | some store' => (store', .ok ())

/-- `LabelRepositoryForMemory::create` (src/repositories/label.rs, lines
202-208): id is `(store.len() + 1) as i32`; the store is not scanned for an
existing label of the same name. -/
def LabelRepositoryForMemory.create (store : MemStore Label) (payload : CreateLabel) :
    MemStore Label × Label :=
  let id : Int := store.length + 1
  let label : Label := ⟨id, payload.name⟩
  (memInsert store id label, label)

/-! ## The relational backend

The Postgres state is modelled as the three tables plus the server-assigned
id sequences.  Statement effects are applied to the shared state at the point
the statement executes: in the source every statement is bound to
`&self.pool` — not to the `tx` returned by `self.pool.begin()` — so each
statement runs (and autocommits) on its own pool connection, and the final
`tx.commit()` commits an empty transaction. -/

structure DbState where
  todos : List TodoFromRow
  labels : List Label
  todo_labels : List (Int × Int)
  nextTodoId : Int
  nextLabelId : Int
deriving Repr, DecidableEq

/-- Label columns produced by one `todo_labels` row `p` under
`LEFT OUTER JOIN labels ON labels.id = tl.label_id`: one pair per label
matching the association's label id, or a single null pair when none does. -/
def assocCells (st : DbState) (p : Int × Int) : List (Option Int × Option String) :=
  match st.labels.filter fun l => l.id == p.2 with
  | [] => [(none, none)]
  | ls => ls.map fun l => (some l.id, some l.name)

/-- Label columns produced for todo id `i` by
`LEFT OUTER JOIN todo_labels tl ON todos.id = tl.todo_id
LEFT OUTER JOIN labels ON labels.id = tl.label_id`:
no association row yields a single null pair; otherwise each association row
contributes its `assocCells`. -/
def labelCells (st : DbState) (i : Int) : List (Option Int × Option String) :=
  match st.todo_labels.filter fun p => p.1 == i with
  | [] => [(none, none)]
  | assocs => assocs.flatMap (assocCells st)

/-- The label denoted by a pair of label columns, when non-null. -/
def cellLabel (c : Option Int × Option String) : Option Label :=
  match c with
  | (some lid, some lname) => some ⟨lid, lname⟩
  | _ => none

/-- The join rows contributed by one `todos` row. -/
def rowsForTodo (st : DbState) (t : TodoFromRow) : List TodoWithLabelFromRow :=
  (labelCells st t.id).map fun c => ⟨t.id, t.text, t.completed, c.1, c.2⟩

/-- Result set of the `find` query (`WHERE todos.id=$1`). -/
def dbFindRows (st : DbState) (id : Int) : List TodoWithLabelFromRow :=
  (st.todos.filter fun t => t.id == id).flatMap (rowsForTodo st)

/-- `TodoRepositoryForDb::find` (src/repositories/todo.rs, lines 163-184):
fold the join rows and take the first aggregate, `NotFound` when there is
none.  The outer `none` models a panic inside `fold_entities`. -/
def TodoRepositoryForDb.find (st : DbState) (id : Int) :
    Option (Except RepositoryError TodoEntity) :=
  match fold_entities (dbFindRows st id) with
  | none => none
  | some todos =>
    match todos.head? with
    | none => some (.error (.NotFound id))
    | some todo => some (.ok todo)

/-- `TodoRepositoryForDb::create` (lines 128-161): INSERT the base row, then
INSERT the association rows, then re-read through `find`.  Both INSERTs run on
the pool (see the module comment), so each commits immediately.
`assocInsertFails` injects a failure of the association INSERT (e.g. a
foreign-key violation on `todo_labels.label_id`); the `?` operator then
returns the error with the base row already persisted. -/
def TodoRepositoryForDb.create (st : DbState) (payload : CreateTodo)
    (assocInsertFails : Bool) : Option (DbState × Except RepositoryError TodoEntity) :=
  let row : TodoFromRow := ⟨st.nextTodoId, payload.text, false⟩
  let st1 : DbState :=
    { st with todos := st.todos ++ [row], nextTodoId := st.nextTodoId + 1 }
  if assocInsertFails then
    some (st1, .error (.Unexpected "todo_labels insert failed"))
  else
    let st2 : DbState :=
      { st1 with todo_labels := st1.todo_labels ++ payload.labels.map fun lid => (row.id, lid) }
    match TodoRepositoryForDb.find st2 row.id with
    | none => none
    | some (.error e) => some (st2, .error e)
    | some (.ok todo) => some (st2, .ok todo)

/-- `TodoRepositoryForDb::update` (lines 201-248): `find` the old todo, UPDATE
the base row with `unwrap_or` fallbacks (`fetch_one` fails when no row
matches), and if the command carries `labels` DELETE the todo's association
rows and INSERT the given ones; finally re-read through `find`. -/
def TodoRepositoryForDb.update (st : DbState) (id : Int) (payload : UpdateTodo) :
    Option (DbState × Except RepositoryError TodoEntity) :=
  match TodoRepositoryForDb.find st id with
  | none => none
  | some (.error e) => some (st, .error e)
  | some (.ok old_todo) =>
    if st.todos.any fun t => t.id == id then
      let st1 : DbState :=
        { st with todos := st.todos.map fun t =>
            if t.id == id then
              ⟨t.id, payload.text.getD old_todo.text, payload.completed.getD old_todo.completed⟩
            else t }
      let st2 : DbState :=
        match payload.labels with
        | none => st1
        | some ls =>
          { st1 with todo_labels :=
              (st1.todo_labels.filter fun p => !(p.1 == id)) ++ ls.map fun lid => (id, lid) }
      match TodoRepositoryForDb.find st2 id with
      | none => none
      | some (.error e) => some (st2, .error e)
      | some (.ok todo) => some (st2, .ok todo)
    else some (st, .error (.Unexpected "RowNotFound"))

/-- `TodoRepositoryForDb::delete` (lines 250-283): DELETE the association rows,
then DELETE the todo row.  A DELETE whose WHERE clause matches nothing is not
an error in SQL, so the `RowNotFound => NotFound` arms are unreachable and the
operation always reports success. -/
def TodoRepositoryForDb.delete (st : DbState) (id : Int) :
    DbState × Except RepositoryError Unit :=
  let st1 : DbState := { st with todo_labels := st.todo_labels.filter fun p => !(p.1 == id) }
  let st2 : DbState := { st1 with todos := st1.todos.filter fun t => !(t.id == id) }
  (st2, .ok ())

/-- `LabelRepositoryForDb::create` (src/repositories/label.rs, lines 41-69):
SELECT an existing label of the same name (`fetch_optional`, first matching
row); on a hit fail with `Duplicate` of its id, else INSERT the new label. -/
def LabelRepositoryForDb.create (st : DbState) (payload : CreateLabel) :
    DbState × Except RepositoryError Label :=
  match st.labels.find? fun l => l.name == payload.name with
  | some label => (st, .error (.Duplicate label.id))
  | none =>
    let label : Label := ⟨st.nextLabelId, payload.name⟩
    ({ st with labels := st.labels ++ [label], nextLabelId := st.nextLabelId + 1 }, .ok label)

/-! ## The validation gate (src/handlers.rs, lines 33-43) -/

/-- The `#[validate(length(min = 1, ...))] #[validate(length(max = 100, ...))]`
rules on `CreateTodo.text`; the `validator` derive evaluates every rule and
collects the messages of all violated ones. -/
def validateCreateTodo (c : CreateTodo) : List String :=
  (if c.text.length < 1 then ["Can not be empty"] else []) ++
    (if c.text.length > 100 then ["Over text length"] else [])

/-- Parse-rejection message: `format!("Json parse error: [{}]", rejection)`. -/
def jsonParseErrorMessage (rejection : String) : String :=
  "Json parse error: [" ++ rejection ++ "]"

/-- Validation-rejection message:
`format!("Validation error: [{}]", rejection).replace('\n', ", ")`, where the
`ValidationErrors` Display lists the offending field (`text`) with the
messages of all its violated rules. -/
def validationErrorMessage (errs : List String) : String :=
  "Validation error: [text: " ++ String.intercalate ", " errs ++ "]"

/-- `ValidatedJson::<CreateTodo>::from_request`: the outcome of
`Json::from_request` is abstracted as `none` (body did not deserialize;
`parseRejection` is the serde message) or `some` of the parsed command, which
is then validated.  Both rejections carry `StatusCode::BAD_REQUEST` (400). -/
def validatedJsonCreateTodo (parsed : Option CreateTodo) (parseRejection : String) :
    Except (Nat × String) CreateTodo :=
  match parsed with
  | none => .error (400, jsonParseErrorMessage parseRejection)
  | some v =>
    match validateCreateTodo v with
    | [] => .ok v
    | errs => .error (400, validationErrorMessage errs)

/-! ## Create-only histories of the in-memory stores -/

/-- Final store and issued ids of a create-only history of the in-memory Todo
store. -/
def runTodoCreates (store : MemStore TodoEntity) :
    List String → MemStore TodoEntity × List Int
  | [] => (store, [])
  | text :: texts =>
    let p := TodoRepositoryForMemory.create store ⟨text, []⟩
    let q := runTodoCreates p.1 texts
    (q.1, p.2.id :: q.2)

/-- Final store and issued ids of a create-only history of the in-memory Label
store. -/
def runLabelCreates (store : MemStore Label) :
    List String → MemStore Label × List Int
  | [] => (store, [])
  | nm :: nms =>
    let p := LabelRepositoryForMemory.create store ⟨nm⟩
    let q := runLabelCreates p.1 nms
    (q.1, p.2.id :: q.2)


/-! ## Concrete scenario inputs -/

/-- An empty database (fresh sequences start at 1). -/
def dbEmpty : DbState := ⟨[], [], [], 1, 1⟩

/-- A database with one todo (id 1, "x", not completed) labelled with the
label (id 7, "L"). -/
def dbC4 : DbState := ⟨[⟨1, "x", false⟩], [⟨7, "L"⟩], [(1, 7)], 2, 8⟩

/-- The join rows of the spec's fold example:
`[(todo=1,label=A),(todo=1,label=B),(todo=2,label=null)]`. -/
def c1Rows : List TodoWithLabelFromRow :=
  [⟨1, "todo 1", false, some 1, some "A"⟩,
   ⟨1, "todo 1", false, some 2, some "B"⟩,
   ⟨2, "todo 2", false, none, none⟩]

/-! ### Lemmas about the spec-side grouping -/

lemma firstRowsAux_subset (seen : List Int) (rows : List TodoWithLabelFromRow) :
    ∀ r ∈ firstRowsAux seen rows, r ∈ rows := by
  induction rows generalizing seen with
  | nil => simp [firstRowsAux]
  | cons d rest ih =>
    intro r hr
    by_cases h : d.id ∈ seen
    · rw [firstRowsAux, if_pos h] at hr
      exact List.mem_cons_of_mem _ (ih seen r hr)
    · rw [firstRowsAux, if_neg h] at hr
      rcases List.mem_cons.mp hr with rfl | hr
      · exact List.mem_cons_self _ _
      · exact List.mem_cons_of_mem _ (ih _ r hr)

lemma mem_map_id_firstRowsAux (seen : List Int) (rows : List TodoWithLabelFromRow) (i : Int) :
    i ∈ (firstRowsAux seen rows).map TodoWithLabelFromRow.id ↔
      i ∉ seen ∧ i ∈ rows.map TodoWithLabelFromRow.id := by
  induction rows generalizing seen with
  | nil => simp [firstRowsAux]
  | cons d rest ih =>
    by_cases h : d.id ∈ seen
    · rw [firstRowsAux, if_pos h, ih]
      simp only [List.map_cons, List.mem_cons]
      constructor
      · rintro ⟨h1, h2⟩; exact ⟨h1, Or.inr h2⟩
      · rintro ⟨h1, rfl | h2⟩
        · exact absurd h h1
        · exact ⟨h1, h2⟩
    · rw [firstRowsAux, if_neg h]
      simp only [List.map_cons, List.mem_cons, ih, List.mem_cons]
      constructor
      · rintro (rfl | ⟨h1, h2⟩)
        · exact ⟨h, Or.inl rfl⟩
        · exact ⟨fun hs => h1 (Or.inr hs), Or.inr h2⟩
      · rintro ⟨h1, rfl | h2⟩
        · exact Or.inl rfl
        · by_cases hi : i = d.id
          · exact Or.inl hi
          · exact Or.inr ⟨fun hs => hs.elim hi h1, h2⟩

lemma nodup_map_id_firstRowsAux (seen : List Int) (rows : List TodoWithLabelFromRow) :
    ((firstRowsAux seen rows).map TodoWithLabelFromRow.id).Nodup := by
  induction rows generalizing seen with
  | nil => simp [firstRowsAux]
  | cons d rest ih =>
    by_cases h : d.id ∈ seen
    · rw [firstRowsAux, if_pos h]; exact ih seen
    · rw [firstRowsAux, if_neg h]
      simp only [List.map_cons, List.nodup_cons]
      refine ⟨fun hmem => ?_, ih _⟩
      exact (mem_map_id_firstRowsAux _ _ _ |>.mp hmem).1 (List.mem_cons_self _ _)

lemma firstRowsAux_append_one (rows : List TodoWithLabelFromRow) (r : TodoWithLabelFromRow)
    (seen : List Int) :
    firstRowsAux seen (rows ++ [r]) =
      firstRowsAux seen rows ++
        (if r.id ∈ seen ∨ r.id ∈ rows.map TodoWithLabelFromRow.id then [] else [r]) := by
  induction rows generalizing seen with
  | nil =>
    by_cases h : r.id ∈ seen <;> simp [firstRowsAux, h]
  | cons d rest ih =>
    by_cases h : d.id ∈ seen
    · rw [List.cons_append, firstRowsAux, if_pos h, ih, firstRowsAux, if_pos h]
      have hcond : (r.id ∈ seen ∨ r.id ∈ rest.map TodoWithLabelFromRow.id) ↔
          (r.id ∈ seen ∨ r.id ∈ (d :: rest).map TodoWithLabelFromRow.id) := by
        simp only [List.map_cons, List.mem_cons]
        constructor
        · rintro (hs | hm)
          · exact Or.inl hs
          · exact Or.inr (Or.inr hm)
        · rintro (hs | heq | hm)
          · exact Or.inl hs
          · exact Or.inl (heq ▸ h)
          · exact Or.inr hm
      rw [if_congr hcond rfl rfl]
    · rw [List.cons_append, firstRowsAux, if_neg h, ih, firstRowsAux, if_neg h,
        List.cons_append]
      have hcond : (r.id ∈ d.id :: seen ∨ r.id ∈ rest.map TodoWithLabelFromRow.id) ↔
          (r.id ∈ seen ∨ r.id ∈ (d :: rest).map TodoWithLabelFromRow.id) := by
        simp only [List.mem_cons, List.map_cons]
        tauto
      rw [if_congr hcond rfl rfl]

lemma labelsFor_append (rows rows' : List TodoWithLabelFromRow) (i : Int) :
    labelsFor (rows ++ rows') i = labelsFor rows i ++ labelsFor rows' i := by
  simp [labelsFor, List.filterMap_append]

lemma labelsFor_single (r : TodoWithLabelFromRow) (i : Int) :
    labelsFor [r] i = if r.id = i then (rowLabel r).toList else [] := by
  by_cases h : r.id = i
  · simp only [labelsFor, List.filterMap, if_pos h]
    cases rowLabel r <;> rfl
  · simp only [labelsFor, List.filterMap, if_neg h]

lemma labelsFor_eq_nil (rows : List TodoWithLabelFromRow) (i : Int)
    (h : ∀ r ∈ rows, r.id ≠ i) : labelsFor rows i = [] := by
  induction rows with
  | nil => rfl
  | cons d rest ih =>
    simp only [labelsFor, List.filterMap, if_neg (h d (List.mem_cons_self _ _))]
    exact ih fun x hx => h x (List.mem_cons_of_mem _ hx)

/-! ### Lemmas about the inner scan of fold_entities -/

lemma pushLabel_of_not_mem (es : List TodoEntity) (r : TodoWithLabelFromRow)
    (h : ∀ e ∈ es, e.id ≠ r.id) : pushLabel es r = some none := by
  induction es with
  | nil => rfl
  | cons e rest ih =>
    rw [pushLabel, if_neg (h e (List.mem_cons_self _ _)),
      ih fun x hx => h x (List.mem_cons_of_mem _ hx)]
    rfl

lemma pushLabel_map_found (frs : List TodoWithLabelFromRow) (F : Int → List Label)
    (r : TodoWithLabelFromRow) (lid : Int) (lname : String)
    (hnodup : (frs.map TodoWithLabelFromRow.id).Nodup)
    (hmem : ∃ fr ∈ frs, fr.id = r.id)
    (hid : r.label_id = some lid) (hname : r.label_name = some lname) :
    pushLabel (frs.map fun fr => ⟨fr.id, fr.text, fr.completed, F fr.id⟩) r =
      some (some (frs.map fun fr =>
        ⟨fr.id, fr.text, fr.completed,
          F fr.id ++ if r.id = fr.id then [⟨lid, lname⟩] else []⟩)) := by
  induction frs with
  | nil => simp at hmem
  | cons fr rest ih =>
    simp only [List.map_cons, List.nodup_cons] at hnodup
    by_cases h : fr.id = r.id
    · rw [List.map_cons, pushLabel, if_pos h, hid, hname, List.map_cons]
      have hrest : rest.map (fun fr2 => (⟨fr2.id, fr2.text, fr2.completed,
          F fr2.id ++ if r.id = fr2.id then [⟨lid, lname⟩] else []⟩ : TodoEntity)) =
          rest.map (fun fr2 => (⟨fr2.id, fr2.text, fr2.completed, F fr2.id⟩ : TodoEntity)) := by
        refine List.map_congr_left fun fr2 h2 => ?_
        have hne : r.id ≠ fr2.id := by
          intro he
          exact hnodup.1 ((h.trans he) ▸ List.mem_map_of_mem TodoWithLabelFromRow.id h2)
        simp [if_neg hne]
      rw [hrest, if_pos h.symm]
    · rw [List.map_cons, pushLabel, if_neg h]
      have hmem' : ∃ fr2 ∈ rest, fr2.id = r.id := by
        rcases hmem with ⟨fr2, hfr2, hfr2id⟩
        rcases List.mem_cons.mp hfr2 with rfl | hfr2
        · exact absurd hfr2id h
        · exact ⟨fr2, hfr2, hfr2id⟩
      rw [ih hnodup.2 hmem', List.map_cons, if_neg fun he => h he.symm]
      simp

/-! ### fold_entities refines the spec-side grouping -/

lemma foldEntitiesAux_groupRows (rest : List TodoWithLabelFromRow) :
    ∀ done : List TodoWithLabelFromRow,
      RowsPaired (done ++ rest) → DupsCarryLabels (done ++ rest) →
      foldEntitiesAux (groupRows done) rest = some (groupRows (done ++ rest)) := by
  induction rest with
  | nil =>
    intro done _ _
    simp [foldEntitiesAux]
  | cons r rest ih =>
    intro done hp hd
    have hsplit : done ++ r :: rest = (done ++ [r]) ++ rest := by simp
    by_cases hmem : r.id ∈ done.map TodoWithLabelFromRow.id
    · -- the row's todo id was seen before, so its label columns are non-null
      obtain ⟨d, hdmem, hdid⟩ := List.mem_map.mp hmem
      have hrel : d.id = r.id → r.label_id.isSome :=
        (List.pairwise_append.mp hd).2.2 d hdmem r (List.mem_cons_self _ _)
      have hid : r.label_id.isSome := hrel hdid
      have hname : r.label_name.isSome := (hp r (by simp)).mp hid
      obtain ⟨lid, hlid⟩ := Option.isSome_iff_exists.mp hid
      obtain ⟨lname, hlname⟩ := Option.isSome_iff_exists.mp hname
      have hrowlab : rowLabel r = some ⟨lid, lname⟩ := by
        rw [rowLabel, hlid, hlname]
      have h1 : firstRows (done ++ [r]) = firstRows done := by
        rw [firstRows, firstRowsAux_append_one, ← firstRows]
        simp [hmem]
      have h2 : groupRows (done ++ [r]) =
          (firstRows done).map fun fr =>
            (⟨fr.id, fr.text, fr.completed,
              labelsFor done fr.id ++
                if r.id = fr.id then [⟨lid, lname⟩] else []⟩ : TodoEntity) := by
        rw [groupRows, h1]
        refine List.map_congr_left fun fr _ => ?_
        rw [labelsFor_append, labelsFor_single, hrowlab]
        by_cases hfi : r.id = fr.id <;> simp [hfi]
      have hexists : ∃ fr ∈ firstRows done, fr.id = r.id := by
        have hm : r.id ∈ (firstRowsAux [] done).map TodoWithLabelFromRow.id :=
          (mem_map_id_firstRowsAux [] done r.id).mpr ⟨by simp, hmem⟩
        obtain ⟨fr, hfr, hfrid⟩ := List.mem_map.mp hm
        exact ⟨fr, hfr, hfrid⟩
      have hstep : pushLabel (groupRows done) r =
          some (some (groupRows (done ++ [r]))) := by
        rw [groupRows, h2]
        exact pushLabel_map_found (firstRows done) (labelsFor done) r lid lname
          (nodup_map_id_firstRowsAux [] done) hexists hlid hlname
      rw [hsplit]
      simp only [foldEntitiesAux, hstep]
      exact ih (done ++ [r]) (hsplit ▸ hp) (hsplit ▸ hd)
    · -- a fresh todo id: a new aggregate is seeded
      have hnotin : ∀ d ∈ done, d.id ≠ r.id := fun d hdmem he =>
        hmem (List.mem_map.mpr ⟨d, hdmem, he⟩)
      have hstep1 : pushLabel (groupRows done) r = some none := by
        apply pushLabel_of_not_mem
        intro e he
        rw [groupRows] at he
        obtain ⟨fr, hfr, rfl⟩ := List.mem_map.mp he
        exact hnotin fr (firstRowsAux_subset [] done fr hfr)
      have hpair := hp r (by simp)
      have hseed : seedLabels r = some (rowLabel r).toList := by
        cases hli : r.label_id with
        | none =>
          rw [seedLabels, hli, rowLabel, hli]
          cases r.label_name <;> rfl
        | some lid =>
          have hs : r.label_name.isSome := hpair.mp (by rw [hli]; rfl)
          obtain ⟨lname, hln⟩ := Option.isSome_iff_exists.mp hs
          rw [seedLabels, hli, hln, rowLabel, hli, hln]
          rfl
      have h1 : firstRows (done ++ [r]) = firstRows done ++ [r] := by
        rw [firstRows, firstRowsAux_append_one, ← firstRows]
        simp [hmem]
      have h2 : groupRows (done ++ [r]) =
          groupRows done ++ [⟨r.id, r.text, r.completed, (rowLabel r).toList⟩] := by
        rw [groupRows, h1, List.map_append]
        congr 1
        · refine List.map_congr_left fun fr hfr => ?_
          rw [labelsFor_append, labelsFor_single,
            if_neg fun he => hnotin fr (firstRowsAux_subset [] done fr hfr) he.symm,
            List.append_nil]
        · rw [List.map_singleton, labelsFor_append,
            labelsFor_eq_nil done r.id hnotin, labelsFor_single, if_pos rfl,
            List.nil_append]
      rw [hsplit]
      simp only [foldEntitiesAux, hstep1, hseed]
      rw [← h2]
      exact ih (done ++ [r]) (hsplit ▸ hp) (hsplit ▸ hd)

/-- Under the LEFT-OUTER-JOIN well-formedness conditions, `fold_entities` does
not panic and produces exactly the spec-side grouping. -/
lemma fold_entities_eq_groupRows (rows : List TodoWithLabelFromRow)
    (hp : RowsPaired rows) (hd : DupsCarryLabels rows) :
    fold_entities rows = some (groupRows rows) := by
  have h := foldEntitiesAux_groupRows rows [] hp hd
  simpa [fold_entities, groupRows, firstRows, firstRowsAux] using h

/-! ### The panic of fold_entities on null-label duplicate rows -/

lemma pushLabel_of_mem_null (es : List TodoEntity) (r : TodoWithLabelFromRow)
    (hmem : ∃ e ∈ es, e.id = r.id)
    (hnull : r.label_id = none ∨ r.label_name = none) : pushLabel es r = none := by
  induction es with
  | nil => simp at hmem
  | cons e rest ih =>
    by_cases h : e.id = r.id
    · rw [pushLabel, if_pos h]
      rcases hnull with h1 | h1
      · rw [h1]
      · rw [h1]; cases r.label_id <;> rfl
    · rw [pushLabel, if_neg h]
      have hmem' : ∃ e2 ∈ rest, e2.id = r.id := by
        rcases hmem with ⟨e2, he2, hid⟩
        rcases List.mem_cons.mp he2 with rfl | he2
        · exact absurd hid h
        · exact ⟨e2, he2, hid⟩
      rw [ih hmem']
      rfl

lemma pushLabel_some_some_ids (es : List TodoEntity) (r : TodoWithLabelFromRow)
    (es' : List TodoEntity) (h : pushLabel es r = some (some es')) :
    es'.map TodoEntity.id = es.map TodoEntity.id := by
  induction es generalizing es' with
  | nil => simp [pushLabel] at h
  | cons e rest ih =>
    rw [pushLabel] at h
    by_cases he : e.id = r.id
    · rw [if_pos he] at h
      cases hli : r.label_id with
      | none => rw [hli] at h; cases r.label_name <;> simp at h
      | some lid =>
        cases hln : r.label_name with
        | none => rw [hli, hln] at h; simp at h
        | some lname =>
          rw [hli, hln] at h
          simp only [Option.some.injEq] at h
          subst h
          simp
    · rw [if_neg he] at h
      cases hph : pushLabel rest r with
      | none => rw [hph] at h; simp at h
      | some o =>
        cases o with
        | none => rw [hph] at h; simp at h
        | some rest' =>
          rw [hph] at h
          simp only [Option.map_some', Option.some.injEq] at h
          subst h
          simp [ih rest' hph]

lemma pushLabel_some_some_mem (es : List TodoEntity) (r : TodoWithLabelFromRow)
    (es' : List TodoEntity) (h : pushLabel es r = some (some es')) :
    ∃ e ∈ es, e.id = r.id := by
  induction es generalizing es' with
  | nil => simp [pushLabel] at h
  | cons e rest ih =>
    rw [pushLabel] at h
    by_cases he : e.id = r.id
    · exact ⟨e, List.mem_cons_self _ _, he⟩
    · rw [if_neg he] at h
      cases hph : pushLabel rest r with
      | none => rw [hph] at h; simp at h
      | some o =>
        cases o with
        | none => rw [hph] at h; simp at h
        | some rest' =>
          obtain ⟨e2, he2, hid2⟩ := ih rest' hph
          exact ⟨e2, List.mem_cons_of_mem _ he2, hid2⟩

lemma foldEntitiesAux_stuck (mid : List TodoWithLabelFromRow)
    (r2 : TodoWithLabelFromRow) (post : List TodoWithLabelFromRow) :
    ∀ acc, (∃ e ∈ acc, e.id = r2.id) → (r2.label_id = none ∨ r2.label_name = none) →
      foldEntitiesAux acc (mid ++ r2 :: post) = none := by
  induction mid with
  | nil =>
    intro acc hmem hnull
    simp only [List.nil_append, foldEntitiesAux, pushLabel_of_mem_null acc r2 hmem hnull]
  | cons m mid ih =>
    intro acc hmem hnull
    rw [List.cons_append]
    cases hpm : pushLabel acc m with
    | none => simp [foldEntitiesAux, hpm]
    | some o =>
      cases o with
      | some acc' =>
        have hmem' : ∃ e ∈ acc', e.id = r2.id := by
          obtain ⟨e, he, hid⟩ := hmem
          have hin : r2.id ∈ acc'.map TodoEntity.id := by
            rw [pushLabel_some_some_ids acc m acc' hpm]
            exact hid ▸ List.mem_map_of_mem _ he
          obtain ⟨e', he', hid'⟩ := List.mem_map.mp hin
          exact ⟨e', he', hid'⟩
        simp only [foldEntitiesAux, hpm]
        exact ih acc' hmem' hnull
      | none =>
        cases hs : seedLabels m with
        | none => simp [foldEntitiesAux, hpm, hs]
        | some ls =>
          simp only [foldEntitiesAux, hpm, hs]
          refine ih _ ?_ hnull
          obtain ⟨e, he, hid⟩ := hmem
          exact ⟨e, List.mem_append_left _ he, hid⟩

lemma foldEntitiesAux_dup_null (pre : List TodoWithLabelFromRow)
    (r1 : TodoWithLabelFromRow) (mid : List TodoWithLabelFromRow)
    (r2 : TodoWithLabelFromRow) (post : List TodoWithLabelFromRow)
    (hid : r1.id = r2.id) (hnull : r2.label_id = none ∨ r2.label_name = none) :
    ∀ acc, foldEntitiesAux acc (pre ++ r1 :: mid ++ r2 :: post) = none := by
  induction pre with
  | nil =>
    intro acc
    rw [List.nil_append]
    cases hp1 : pushLabel acc r1 with
    | none => simp [foldEntitiesAux, hp1]
    | some o =>
      cases o with
      | some acc' =>
        have hmem : ∃ e ∈ acc', e.id = r2.id := by
          obtain ⟨e, he, heid⟩ := pushLabel_some_some_mem acc r1 acc' hp1
          have h1 : r1.id ∈ acc'.map TodoEntity.id := by
            rw [pushLabel_some_some_ids acc r1 acc' hp1]
            exact heid ▸ List.mem_map_of_mem _ he
          obtain ⟨e', he', hid'⟩ := List.mem_map.mp h1
          exact ⟨e', he', hid ▸ hid'⟩
        simp only [foldEntitiesAux, hp1]
        exact foldEntitiesAux_stuck mid r2 post acc' hmem hnull
      | none =>
        cases hs : seedLabels r1 with
        | none => simp [foldEntitiesAux, hp1, hs]
        | some ls =>
          simp only [foldEntitiesAux, hp1, hs]
          refine foldEntitiesAux_stuck mid r2 post _ ?_ hnull
          exact ⟨⟨r1.id, r1.text, r1.completed, ls⟩,
            List.mem_append_right _ (List.mem_singleton.mpr rfl), hid⟩
  | cons p pre ih =>
    intro acc
    rw [List.cons_append]
    cases hpp : pushLabel acc p with
    | none => simp [foldEntitiesAux, hpp]
    | some o =>
      cases o with
      | some acc' =>
        simp only [foldEntitiesAux, hpp]
        exact ih acc'
      | none =>
        cases hs : seedLabels p with
        | none => simp [foldEntitiesAux, hpp, hs]
        | some ls =>
          simp only [foldEntitiesAux, hpp, hs]
          exact ih _

/-! ### The find query under a well-formed database -/

lemma firstRowsAux_all_seen (seen : List Int) (rows : List TodoWithLabelFromRow)
    (h : ∀ r ∈ rows, r.id ∈ seen) : firstRowsAux seen rows = [] := by
  induction rows generalizing seen with
  | nil => rfl
  | cons d rest ih =>
    rw [firstRowsAux, if_pos (h d (List.mem_cons_self _ _))]
    exact ih seen fun r hr => h r (List.mem_cons_of_mem _ hr)

lemma firstRows_const_id (r0 : TodoWithLabelFromRow) (rest : List TodoWithLabelFromRow)
    (h : ∀ r ∈ rest, r.id = r0.id) : firstRows (r0 :: rest) = [r0] := by
  rw [firstRows, firstRowsAux, if_neg (List.not_mem_nil r0.id)]
  rw [firstRowsAux_all_seen _ _ fun r hr => by
    rw [h r hr]; exact List.mem_cons_self _ _]

lemma labelsFor_of_all_id (rows : List TodoWithLabelFromRow) (i : Int)
    (h : ∀ r ∈ rows, r.id = i) : labelsFor rows i = rows.filterMap rowLabel := by
  induction rows with
  | nil => rfl
  | cons d rest ih =>
    have hd := h d (List.mem_cons_self _ _)
    have ih' := ih fun r hr => h r (List.mem_cons_of_mem _ hr)
    rw [labelsFor, List.filterMap_cons, if_pos hd, List.filterMap_cons,
      ← labelsFor, ih']

lemma dupsCarryLabels_of_all_some (rows : List TodoWithLabelFromRow)
    (h : ∀ b ∈ rows, b.label_id.isSome) : DupsCarryLabels rows := by
  induction rows with
  | nil => exact List.Pairwise.nil
  | cons d rest ih =>
    exact List.Pairwise.cons (fun b hb _ => h b (List.mem_cons_of_mem _ hb))
      (ih fun b hb => h b (List.mem_cons_of_mem _ hb))

lemma rowLabel_template (i : Int) (txt : String) (cpl : Bool)
    (c : Option Int × Option String) :
    rowLabel ⟨i, txt, cpl, c.1, c.2⟩ = cellLabel c := by
  obtain ⟨c1, c2⟩ := c
  cases c1 <;> cases c2 <;> rfl

lemma fold_entities_cells (i : Int) (txt : String) (cpl : Bool)
    (cells : List (Option Int × Option String)) (hne : cells ≠ [])
    (hok : cells = [(none, none)] ∨ ∀ c ∈ cells, c.1.isSome ∧ c.2.isSome) :
    fold_entities (cells.map fun c => ⟨i, txt, cpl, c.1, c.2⟩) =
      some [⟨i, txt, cpl, cells.filterMap cellLabel⟩] := by
  rcases hok with rfl | hall
  · rfl
  · obtain ⟨c0, cs, rfl⟩ := List.exists_cons_of_ne_nil hne
    have hp : RowsPaired ((c0 :: cs).map fun c =>
        (⟨i, txt, cpl, c.1, c.2⟩ : TodoWithLabelFromRow)) := by
      intro r hr
      obtain ⟨c, hc, rfl⟩ := List.mem_map.mp hr
      have hcs := hall c hc
      simp [hcs.1, hcs.2]
    have hdups : DupsCarryLabels ((c0 :: cs).map fun c =>
        (⟨i, txt, cpl, c.1, c.2⟩ : TodoWithLabelFromRow)) := by
      apply dupsCarryLabels_of_all_some
      intro b hb
      obtain ⟨c, hc, rfl⟩ := List.mem_map.mp hb
      exact (hall c hc).1
    rw [fold_entities_eq_groupRows _ hp hdups, groupRows, List.map_cons]
    have hids : ∀ r ∈ cs.map fun c => (⟨i, txt, cpl, c.1, c.2⟩ : TodoWithLabelFromRow),
        r.id = (⟨i, txt, cpl, c0.1, c0.2⟩ : TodoWithLabelFromRow).id := by
      intro r hr
      obtain ⟨c, _, rfl⟩ := List.mem_map.mp hr
      rfl
    rw [firstRows_const_id _ _ hids, List.map_singleton]
    have hall' : ∀ r ∈ (c0 :: cs).map fun c =>
        (⟨i, txt, cpl, c.1, c.2⟩ : TodoWithLabelFromRow), r.id = i := by
      intro r hr
      obtain ⟨c, _, rfl⟩ := List.mem_map.mp hr
      rfl
    have hlab : labelsFor ((c0 :: cs).map fun c =>
        (⟨i, txt, cpl, c.1, c.2⟩ : TodoWithLabelFromRow)) i =
        (c0 :: cs).filterMap cellLabel := by
      rw [labelsFor_of_all_id _ i hall', List.filterMap_map]
      have hfun : (rowLabel ∘ fun c : Option Int × Option String =>
          (⟨i, txt, cpl, c.1, c.2⟩ : TodoWithLabelFromRow)) = cellLabel := by
        funext c
        exact rowLabel_template i txt cpl c
      rw [hfun]
    exact congrArg (fun ls => some [(⟨i, txt, cpl, ls⟩ : TodoEntity)]) hlab

lemma assocCells_ne_nil (st : DbState) (p : Int × Int) : assocCells st p ≠ [] := by
  rw [assocCells]
  cases st.labels.filter fun l => l.id == p.2 <;> simp

lemma labelCells_ne_nil (st : DbState) (i : Int) : labelCells st i ≠ [] := by
  rw [labelCells]
  cases hf : st.todo_labels.filter fun p => p.1 == i with
  | nil => simp
  | cons a as =>
    show (a :: as).flatMap (assocCells st) ≠ []
    rw [List.flatMap_cons]
    exact fun hcontra => assocCells_ne_nil st a (List.append_eq_nil.mp hcontra).1

lemma labelCells_ok_of_resolved (st : DbState) (i : Int)
    (h : ∀ p ∈ st.todo_labels, p.1 = i →
      ∃ nm, st.labels.filter (fun l => l.id == p.2) = [⟨p.2, nm⟩]) :
    labelCells st i = [(none, none)] ∨
      ∀ c ∈ labelCells st i, c.1.isSome ∧ c.2.isSome := by
  rw [labelCells]
  cases hf : st.todo_labels.filter fun p => p.1 == i with
  | nil => exact Or.inl rfl
  | cons a as =>
    right
    intro c hc
    obtain ⟨p, hp, hcp⟩ := List.mem_flatMap.mp hc
    have hpf := List.mem_filter.mp (hf ▸ hp)
    obtain ⟨nm, hnm⟩ := h p hpf.1 (by simpa using hpf.2)
    rw [assocCells, hnm] at hcp
    simp only [List.map_singleton, List.mem_singleton] at hcp
    subst hcp
    exact ⟨rfl, rfl⟩

lemma find_of_singleton (st : DbState) (i : Int) (t : TodoFromRow)
    (h1 : st.todos.filter (fun t2 => t2.id == i) = [t])
    (hok : labelCells st i = [(none, none)] ∨
      ∀ c ∈ labelCells st i, c.1.isSome ∧ c.2.isSome) :
    TodoRepositoryForDb.find st i =
      some (.ok ⟨i, t.text, t.completed, (labelCells st i).filterMap cellLabel⟩) := by
  have hti : t.id = i := by
    have hm := List.mem_filter.mp (h1 ▸ List.mem_cons_self t [])
    simpa using hm.2
  have hrows : dbFindRows st i =
      (labelCells st i).map fun c => ⟨i, t.text, t.completed, c.1, c.2⟩ := by
    rw [dbFindRows, h1]
    simp [rowsForTodo, hti]
  rw [TodoRepositoryForDb.find, hrows,
    fold_entities_cells i t.text t.completed _ (labelCells_ne_nil st i) hok]
  rfl

lemma assocCells_resolved (st : DbState) (i lid : Int) (nm : String)
    (hnm : st.labels.filter (fun l => l.id == lid) = [⟨lid, nm⟩]) :
    assocCells st (i, lid) = [(some lid, some nm)] := by
  simp [assocCells, hnm]

lemma flatMap_assocCells (st : DbState) (i : Int) :
    ∀ ls : List Int,
      (∀ lid ∈ ls, ∃ nm, st.labels.filter (fun l => l.id == lid) = [⟨lid, nm⟩]) →
      ∃ labs : List Label,
        ((ls.map fun lid => (i, lid)).flatMap (assocCells st) =
          labs.map fun l => (some l.id, some l.name)) ∧
        labs.map Label.id = ls ∧ ∀ l ∈ labs, l ∈ st.labels := by
  intro ls
  induction ls with
  | nil => exact fun _ => ⟨[], rfl, rfl, by simp⟩
  | cons lid ls ih =>
    intro h
    obtain ⟨nm, hnm⟩ := h lid (List.mem_cons_self _ _)
    obtain ⟨labs, hflat, hids, hmem⟩ := ih fun x hx => h x (List.mem_cons_of_mem _ hx)
    refine ⟨⟨lid, nm⟩ :: labs, ?_, ?_, ?_⟩
    · rw [List.map_cons, List.flatMap_cons, assocCells_resolved st i lid nm hnm, hflat]
      rfl
    · rw [List.map_cons, hids]
    · intro l hl
      rcases List.mem_cons.mp hl with rfl | hl
      · have hmem2 : (⟨lid, nm⟩ : Label) ∈ st.labels.filter fun l2 => l2.id == lid := by
          rw [hnm]
          exact List.mem_cons_self _ _
        exact (List.mem_filter.mp hmem2).1
      · exact hmem l hl

lemma filterMap_cellLabel_map (labs : List Label) :
    (labs.map fun l =>
      ((some l.id : Option Int), (some l.name : Option String))).filterMap cellLabel = labs := by
  induction labs with
  | nil => rfl
  | cons l rest ih => simp [List.filterMap_cons, cellLabel, ih]

/-! ### Lemmas about the in-memory store -/

lemma memGet_append_fresh {α : Type} (store : MemStore α) (id : Int) (v : α)
    (h : ∀ p ∈ store, (p.1 == id) = false) :
    memGet (store ++ [(id, v)]) id = some v := by
  induction store with
  | nil => simp [memGet, List.find?]
  | cons p ps ih =>
    rw [List.cons_append, memGet, List.find?]
    rw [h p (List.mem_cons_self _ _)]
    exact ih fun q hq => h q (List.mem_cons_of_mem _ hq)

lemma memGet_replace {α : Type} (store : MemStore α) (id : Int) (v : α)
    (h : (store.any fun p => p.1 == id) = true) :
    memGet (store.map fun p => if p.1 == id then (id, v) else p) id = some v := by
  induction store with
  | nil => simp at h
  | cons p ps ih =>
    rw [List.map_cons]
    by_cases hp : (p.1 == id) = true
    · rw [if_pos hp, memGet, List.find?]
      simp
    · rw [if_neg hp, memGet, List.find?]
      rw [Bool.of_not_eq_true hp]
      have hps : (ps.any fun q => q.1 == id) = true := by
        rcases List.any_eq_true.mp h with ⟨q, hq, hqid⟩
        rcases List.mem_cons.mp hq with rfl | hq
        · exact absurd hqid hp
        · exact List.any_eq_true.mpr ⟨q, hq, hqid⟩
      exact ih hps

lemma memGet_memInsert_self {α : Type} (store : MemStore α) (id : Int) (v : α) :
    memGet (memInsert store id v) id = some v := by
  rw [memInsert]
  by_cases h : (store.any fun p => p.1 == id) = true
  · rw [if_pos h]
    exact memGet_replace store id v h
  · rw [if_neg h]
    refine memGet_append_fresh store id v fun p hp => ?_
    by_contra hc
    exact h (List.any_eq_true.mpr ⟨p, hp, Bool.of_not_eq_false hc⟩)

lemma memGet_filter_out {α : Type} (store : MemStore α) (id : Int) :
    memGet (store.filter fun p => !(p.1 == id)) id = none := by
  rw [memGet, Option.map_eq_none', List.find?_eq_none]
  intro p hp
  have hm := (List.mem_filter.mp hp).2
  simp at hm
  simp [hm]

lemma memAny_of_get_some {α : Type} (store : MemStore α) (id : Int) (v : α)
    (h : memGet store id = some v) : (store.any fun p => p.1 == id) = true := by
  rw [memGet] at h
  rcases Option.map_eq_some'.mp h with ⟨q, hq, rfl⟩
  have hpred := List.find?_some hq
  exact List.any_eq_true.mpr ⟨q, List.mem_of_find?_eq_some hq, hpred⟩

lemma memAny_of_get_none {α : Type} (store : MemStore α) (id : Int)
    (h : memGet store id = none) : (store.any fun p => p.1 == id) = false := by
  rw [memGet, Option.map_eq_none', List.find?_eq_none] at h
  by_contra hc
  rcases List.any_eq_true.mp (Bool.of_not_eq_false hc) with ⟨p, hp, hpid⟩
  exact h p hp hpid


/-! ### Ids of folded aggregates and create-only id trajectories -/

lemma foldEntitiesAux_mem_ids (rows : List TodoWithLabelFromRow) :
    ∀ acc todos, foldEntitiesAux acc rows = some todos →
      ∀ e ∈ todos, e.id ∈ acc.map TodoEntity.id ∨ ∃ r ∈ rows, e.id = r.id := by
  induction rows with
  | nil =>
    intro acc todos h e he
    simp only [foldEntitiesAux, Option.some.injEq] at h
    subst h
    exact Or.inl (List.mem_map_of_mem _ he)
  | cons row rows ih =>
    intro acc todos h e he
    cases hpl : pushLabel acc row with
    | none => simp [foldEntitiesAux, hpl] at h
    | some o =>
      cases o with
      | some acc' =>
        simp only [foldEntitiesAux, hpl] at h
        rcases ih acc' todos h e he with hl | ⟨r, hr, hid⟩
        · rw [pushLabel_some_some_ids acc row acc' hpl] at hl
          exact Or.inl hl
        · exact Or.inr ⟨r, List.mem_cons_of_mem _ hr, hid⟩
      | none =>
        cases hs : seedLabels row with
        | none => simp [foldEntitiesAux, hpl, hs] at h
        | some ls =>
          simp only [foldEntitiesAux, hpl, hs] at h
          rcases ih _ todos h e he with hl | ⟨r, hr, hid⟩
          · rw [List.map_append] at hl
            rcases List.mem_append.mp hl with hl | hl
            · exact Or.inl hl
            · simp only [List.map_singleton, List.mem_singleton] at hl
              exact Or.inr ⟨row, List.mem_cons_self _ _, hl⟩
          · exact Or.inr ⟨r, List.mem_cons_of_mem _ hr, hid⟩

lemma dbFindRows_id (st : DbState) (i : Int) :
    ∀ r ∈ dbFindRows st i, r.id = i := by
  intro r hr
  obtain ⟨t, ht, hrt⟩ := List.mem_flatMap.mp hr
  have hti : (t.id == i) = true := (List.mem_filter.mp ht).2
  obtain ⟨c, _, rfl⟩ := List.mem_map.mp hrt
  simpa using hti

lemma find_ok_id (st : DbState) (i : Int) (e : TodoEntity)
    (h : TodoRepositoryForDb.find st i = some (.ok e)) : e.id = i := by
  rw [TodoRepositoryForDb.find] at h
  cases hf : fold_entities (dbFindRows st i) with
  | none => rw [hf] at h; simp at h
  | some todos =>
    rw [hf] at h
    cases todos with
    | nil => simp at h
    | cons e0 rest =>
      simp only [List.head?, Option.some.injEq, Except.ok.injEq] at h
      subst h
      rcases foldEntitiesAux_mem_ids (dbFindRows st i) [] (e0 :: rest) hf e0
          (List.mem_cons_self _ _) with hl | ⟨r, hr, hid⟩
      · simp at hl
      · rw [hid]
        exact dbFindRows_id st i r hr

lemma runTodoCreates_ids (texts : List String) :
    ∀ store : MemStore TodoEntity, (∀ p ∈ store, p.1 ≤ (store.length : Int)) →
      (runTodoCreates store texts).2 =
        (List.range texts.length).map fun k => ((store.length + k + 1 : Nat) : Int) := by
  induction texts with
  | nil => intro store _; rfl
  | cons t ts ih =>
    intro store h
    have hfresh : (store.any fun p => p.1 == ((store.length : Int) + 1)) = false := by
      by_contra hc
      rcases List.any_eq_true.mp (Bool.of_not_eq_false hc) with ⟨p, hp, hpid⟩
      have hpeq : p.1 = (store.length : Int) + 1 := by simpa using hpid
      have hle := h p hp
      omega
    have hstep : TodoRepositoryForMemory.create store ⟨t, []⟩ =
        (store ++ [((store.length : Int) + 1,
            ⟨(store.length : Int) + 1, t, false, []⟩)],
          ⟨(store.length : Int) + 1, t, false, []⟩) := by
      simp [TodoRepositoryForMemory.create, memInsert, hfresh]
    have h' : ∀ p ∈ store ++ [((store.length : Int) + 1,
        (⟨(store.length : Int) + 1, t, false, []⟩ : TodoEntity))],
        p.1 ≤ ((store ++ [((store.length : Int) + 1,
          (⟨(store.length : Int) + 1, t, false, []⟩ : TodoEntity))]).length : Int) := by
      intro p hp
      rw [List.length_append, List.length_singleton]
      push_cast
      rcases List.mem_append.mp hp with hp | hp
      · have hle := h p hp
        omega
      · simp only [List.mem_singleton] at hp
        subst hp
        simp
    simp only [runTodoCreates, hstep, ih _ h', List.length_append, List.length_singleton,
      List.length_cons, List.length_nil]
    rw [List.range_succ_eq_map, List.map_cons, List.map_map]
    congr 1
    refine List.map_congr_left fun k _ => ?_
    simp only [Function.comp]
    congr 1
    omega

lemma runLabelCreates_ids (names : List String) :
    ∀ store : MemStore Label, (∀ p ∈ store, p.1 ≤ (store.length : Int)) →
      (runLabelCreates store names).2 =
        (List.range names.length).map fun k => ((store.length + k + 1 : Nat) : Int) := by
  induction names with
  | nil => intro store _; rfl
  | cons nm nms ih =>
    intro store h
    have hfresh : (store.any fun p => p.1 == ((store.length : Int) + 1)) = false := by
      by_contra hc
      rcases List.any_eq_true.mp (Bool.of_not_eq_false hc) with ⟨p, hp, hpid⟩
      have hpeq : p.1 = (store.length : Int) + 1 := by simpa using hpid
      have hle := h p hp
      omega
    have hstep : LabelRepositoryForMemory.create store ⟨nm⟩ =
        (store ++ [((store.length : Int) + 1, ⟨(store.length : Int) + 1, nm⟩)],
          ⟨(store.length : Int) + 1, nm⟩) := by
      simp [LabelRepositoryForMemory.create, memInsert, hfresh]
    have h' : ∀ p ∈ store ++ [((store.length : Int) + 1,
        (⟨(store.length : Int) + 1, nm⟩ : Label))],
        p.1 ≤ ((store ++ [((store.length : Int) + 1,
          (⟨(store.length : Int) + 1, nm⟩ : Label))]).length : Int) := by
      intro p hp
      rw [List.length_append, List.length_singleton]
      push_cast
      rcases List.mem_append.mp hp with hp | hp
      · have hle := h p hp
        omega
      · simp only [List.mem_singleton] at hp
        subst hp
        simp
    simp only [runLabelCreates, hstep, ih _ h', List.length_append, List.length_singleton,
      List.length_cons, List.length_nil]
    rw [List.range_succ_eq_map, List.map_cons, List.map_map]
    congr 1
    refine List.map_congr_left fun k _ => ?_
    simp only [Function.comp]
    congr 1
    omega


/-! ## Claim theorems -/

/-- C1: on every list of LEFT-OUTER-JOIN rows (label columns null or non-null
together, and any row repeating an earlier todo id carrying labels),
`fold_entities` produces exactly the spec-side grouping: aggregates in
first-seen order of todo id, each grouping all label-carrying rows of its id
into its label list, seeded empty when the row's label fields are null. -/
theorem c1_fold_entities_first_seen_grouping (rows : List TodoWithLabelFromRow)
    (hp : RowsPaired rows) (hd : DupsCarryLabels rows) :
    fold_entities rows = some (groupRows rows) :=
  fold_entities_eq_groupRows rows hp hd

/-- C1 witness: on rows [(todo=1,label=A),(todo=1,label=B),(todo=2,label=null)]
the fold yields [{id 1, labels [A,B]}, {id 2, labels []}], in that order. -/
theorem c1_witness :
    RowsPaired c1Rows ∧ DupsCarryLabels c1Rows ∧
      fold_entities c1Rows =
        some [⟨1, "todo 1", false, [⟨1, "A"⟩, ⟨2, "B"⟩]⟩, ⟨2, "todo 2", false, []⟩] :=
  ⟨by decide, by decide,
    (c1_fold_entities_first_seen_grouping c1Rows (by decide) (by decide)).trans (by decide)⟩

/-- C10: whenever a join row's todo id equals the id of an earlier row and its
label columns are null, `fold_entities` reaches the unconditional `unwrap` of
the append branch and panics, whatever the surrounding rows are; so the fold
is total only when every row duplicating an earlier todo id carries non-null
label fields. -/
theorem c10_fold_entities_panics_on_null_duplicate
    (pre : List TodoWithLabelFromRow) (r1 : TodoWithLabelFromRow)
    (mid : List TodoWithLabelFromRow) (r2 : TodoWithLabelFromRow)
    (post : List TodoWithLabelFromRow) (hid : r1.id = r2.id)
    (hnull : r2.label_id = none ∨ r2.label_name = none) :
    fold_entities (pre ++ r1 :: mid ++ r2 :: post) = none :=
  foldEntitiesAux_dup_null pre r1 mid r2 post hid hnull []

/-- C10 witness: two rows of todo id 1 where the second carries null label
fields make `fold_entities` panic. -/
theorem c10_witness :
    (⟨1, "todo 1", false, some 1, some "A"⟩ : TodoWithLabelFromRow).id =
        (⟨1, "todo 1", false, none, none⟩ : TodoWithLabelFromRow).id ∧
    ((⟨1, "todo 1", false, none, none⟩ : TodoWithLabelFromRow).label_id = none ∨
        (⟨1, "todo 1", false, none, none⟩ : TodoWithLabelFromRow).label_name = none) ∧
    fold_entities [⟨1, "todo 1", false, some 1, some "A"⟩,
      ⟨1, "todo 1", false, none, none⟩] = none :=
  ⟨rfl, Or.inl rfl,
    c10_fold_entities_panics_on_null_duplicate [] ⟨1, "todo 1", false, some 1, some "A"⟩
      [] ⟨1, "todo 1", false, none, none⟩ [] rfl (Or.inl rfl)⟩

/-- C2 (code bug): the relational `create` is not atomic.  The source begins a
transaction but binds every statement to `&self.pool` instead of the
transaction handle, so each INSERT commits on its own pool connection.  When
the association INSERT fails after the base-row INSERT succeeded — here
creating `{text: "a", labels: [1]}` on an empty database — the operation
returns an error, yet the todos base row `(1, "a", false)` stays committed and
a subsequent `find 1` observes the partially-applied state, which the claim
rules out. -/
theorem c2_create_not_atomic :
    TodoRepositoryForDb.create dbEmpty ⟨"a", [1]⟩ true =
      some (⟨[⟨1, "a", false⟩], [], [], 2, 1⟩,
        .error (.Unexpected "todo_labels insert failed")) ∧
    TodoRepositoryForDb.find ⟨[⟨1, "a", false⟩], [], [], 2, 1⟩ 1 =
      some (.ok ⟨1, "a", false, []⟩) := by
  refine ⟨by decide, by decide⟩

/-- C5 counterexample: the in-memory Label `create` performs no duplicate-name
check at all — creating the name "x" twice yields a second stored label
`{id 2, name "x"}` and returns it as a success, where the claim requires a
`Duplicate` failure carrying id 1 and no second row. -/
theorem c5_counterexample :
    LabelRepositoryForMemory.create (LabelRepositoryForMemory.create [] ⟨"x"⟩).1 ⟨"x"⟩ =
      ([(1, ⟨1, "x"⟩), (2, ⟨2, "x"⟩)], ⟨2, "x"⟩) := by
  decide

/-- C5 (amended): on the relational backend a CreateLabel whose name matches a
stored label fails with `Duplicate` carrying the existing label's id and
inserts nothing, and a fresh name inserts exactly one new label; the in-memory
backend performs no name-uniqueness check and always inserts under id
`size + 1`, returning the new label even when the name already exists. -/
theorem c5_amended :
    (∀ (st : DbState) (payload : CreateLabel) (l : Label),
      st.labels.find? (fun l2 => l2.name == payload.name) = some l →
      LabelRepositoryForDb.create st payload = (st, .error (.Duplicate l.id))) ∧
    (∀ (st : DbState) (payload : CreateLabel),
      st.labels.find? (fun l2 => l2.name == payload.name) = none →
      LabelRepositoryForDb.create st payload =
        (⟨st.todos, st.labels ++ [⟨st.nextLabelId, payload.name⟩], st.todo_labels,
            st.nextTodoId, st.nextLabelId + 1⟩, .ok ⟨st.nextLabelId, payload.name⟩)) ∧
    (∀ (store : MemStore Label) (payload : CreateLabel),
      LabelRepositoryForMemory.create store payload =
        (memInsert store ((store.length : Int) + 1) ⟨(store.length : Int) + 1, payload.name⟩,
          ⟨(store.length : Int) + 1, payload.name⟩)) := by
  refine ⟨?_, ?_, ?_⟩
  · intro st payload l h
    rw [LabelRepositoryForDb.create, h]
  · intro st payload h
    rw [LabelRepositoryForDb.create, h]
  · intro store payload
    rfl

/-- C5 witness: a database holding label `{id 3, name "x"}` rejects a second
"x" with `Duplicate 3` and stays unchanged. -/
theorem c5_witness :
    (⟨[], [⟨3, "x"⟩], [], 1, 4⟩ : DbState).labels.find?
        (fun l2 => l2.name == ("x" : String)) = some ⟨3, "x"⟩ ∧
    LabelRepositoryForDb.create ⟨[], [⟨3, "x"⟩], [], 1, 4⟩ ⟨"x"⟩ =
      (⟨[], [⟨3, "x"⟩], [], 1, 4⟩, .error (.Duplicate 3)) :=
  ⟨by decide, c5_amended.1 ⟨[], [⟨3, "x"⟩], [], 1, 4⟩ ⟨"x"⟩ ⟨3, "x"⟩ (by decide)⟩

/-- C6 (code bug): the relational `delete` never reports `NotFound`: a DELETE
whose WHERE clause matches nothing is not an error, so both `RowNotFound =>
NotFound` mapping arms of the source are dead code and deleting an absent id
reports success.  Deleting id 1 on an empty database returns `Ok(())`, where
the claim (and the in-memory backend) require `NotFound`. -/
theorem c6_db_delete_missing_id_reports_success :
    TodoRepositoryForDb.delete dbEmpty 1 = (dbEmpty, .ok ()) ∧
    TodoRepositoryForMemory.delete ([] : MemStore TodoEntity) 1 =
      ([], .error (.NotFound 1)) := by
  refine ⟨by decide, by decide⟩

/-- C6 (what does hold): the in-memory `delete` returns `NotFound` exactly
when the id is absent and otherwise removes the entry so `find` fails
afterwards; the relational `delete` always reports success, removes the todo
row and every association row of the id, and afterwards `find` fails with
`NotFound` and no association row referencing the id remains. -/
theorem c6_delete_behaviour :
    (∀ (store : MemStore TodoEntity) (i : Int), memGet store i = none →
      TodoRepositoryForMemory.delete store i = (store, .error (.NotFound i))) ∧
    (∀ (store : MemStore TodoEntity) (i : Int) (v : TodoEntity), memGet store i = some v →
      TodoRepositoryForMemory.delete store i =
        (store.filter fun p => !(p.1 == i), .ok ()) ∧
      memGet (store.filter fun p => !(p.1 == i)) i = none) ∧
    (∀ (st : DbState) (i : Int),
      (TodoRepositoryForDb.delete st i).2 = .ok () ∧
      (∀ t ∈ (TodoRepositoryForDb.delete st i).1.todos, t.id ≠ i) ∧
      (∀ p ∈ (TodoRepositoryForDb.delete st i).1.todo_labels, p.1 ≠ i) ∧
      TodoRepositoryForDb.find (TodoRepositoryForDb.delete st i).1 i =
        some (.error (.NotFound i))) := by
  refine ⟨?_, ?_, ?_⟩
  · intro store i h
    rw [TodoRepositoryForMemory.delete, memRemove, if_neg]
    rw [memAny_of_get_none store i h]
    exact Bool.false_ne_true
  · intro store i v h
    constructor
    · rw [TodoRepositoryForMemory.delete, memRemove, if_pos (memAny_of_get_some store i v h)]
    · exact memGet_filter_out store i
  · intro st i
    refine ⟨rfl, ?_, ?_, ?_⟩
    · intro t ht he
      have hm := (List.mem_filter.mp ht).2
      rw [he] at hm
      simp at hm
    · intro p hp he
      have hm := (List.mem_filter.mp hp).2
      rw [he] at hm
      simp at hm
    · have hnil : (((TodoRepositoryForDb.delete st i).1).todos.filter
          fun t => t.id == i) = [] := by
        refine List.filter_eq_nil_iff.mpr fun t ht hbeq => ?_
        have hm := (List.mem_filter.mp ht).2
        simp at hm hbeq
        exact hm hbeq
      rw [TodoRepositoryForDb.find, dbFindRows, hnil]
      rfl

/-- C7 counterexample: the second create is issued id 2; after deleting id 1,
the next create computes `size + 1 = 2` again, re-issuing id 2 while the store
instance (and the todo holding id 2) lives — id 2 is reused. -/
theorem c7_counterexample :
    (TodoRepositoryForMemory.create
      (TodoRepositoryForMemory.create [] ⟨"a", []⟩).1 ⟨"b", []⟩).2.id = 2 ∧
    (TodoRepositoryForMemory.create
      (TodoRepositoryForMemory.delete
        (TodoRepositoryForMemory.create
          (TodoRepositoryForMemory.create [] ⟨"a", []⟩).1 ⟨"b", []⟩).1
        1).1 ⟨"c", []⟩).2.id = 2 := by
  refine ⟨by decide, by decide⟩

/-- C7 (amended): ids are computed as `store size + 1` under the write lock,
so along any delete-free history of a store instance the issued Todo and Label
ids are exactly 1, 2, ..., n — strictly increasing in creation order and never
reused; once a delete shrinks the store, a later create can re-issue a
previously issued id (see the counterexample). -/
theorem c7_create_only_ids_monotone :
    (∀ texts : List String,
      (runTodoCreates [] texts).2 =
        (List.range texts.length).map (fun k => ((k + 1 : Nat) : Int)) ∧
      List.Pairwise (· < ·) (runTodoCreates [] texts).2 ∧
      ((runTodoCreates [] texts).2).Nodup) ∧
    (∀ names : List String,
      (runLabelCreates [] names).2 =
        (List.range names.length).map (fun k => ((k + 1 : Nat) : Int)) ∧
      List.Pairwise (· < ·) (runLabelCreates [] names).2 ∧
      ((runLabelCreates [] names).2).Nodup) := by
  have key : ∀ n : Nat, List.Pairwise (· < ·)
      ((List.range n).map fun k => ((k + 1 : Nat) : Int)) := fun n =>
    List.pairwise_map.mpr ((List.pairwise_lt_range n).imp fun h => by omega)
  constructor
  · intro texts
    have hids' : (runTodoCreates [] texts).2 =
        (List.range texts.length).map fun k => ((k + 1 : Nat) : Int) := by
      rw [runTodoCreates_ids texts [] (by simp)]
      refine List.map_congr_left fun k _ => ?_
      simp
    exact ⟨hids', hids' ▸ key _, (hids' ▸ key _).imp fun h => ne_of_lt h⟩
  · intro names
    have hids' : (runLabelCreates [] names).2 =
        (List.range names.length).map fun k => ((k + 1 : Nat) : Int) := by
      rw [runLabelCreates_ids names [] (by simp)]
      refine List.map_congr_left fun k _ => ?_
      simp
    exact ⟨hids', hids' ▸ key _, (hids' ▸ key _).imp fun h => ne_of_lt h⟩


lemma validation_msg_ne_parse_msg (errs : List String) (p : String) :
    validationErrorMessage errs ≠ jsonParseErrorMessage p := by
  intro h
  have h1 : (validationErrorMessage errs).data.head? = some 'V' := rfl
  rw [h] at h1
  have h2 : (jsonParseErrorMessage p).data.head? = some 'J' := rfl
  rw [h2] at h1
  simp at h1

/-- C9: the validation gate keeps the two failure modes apart.  A payload that
does not deserialize is rejected with the parse-error message; a payload that
parses but violates field rules is rejected with a message carrying every
violated rule's text; no validation message ever equals a parse-error message
(their prefixes differ); in particular CreateTodo with text = "" is rejected
with the min-length message "Can not be empty", not a parse error. -/
theorem c9_validation_gate :
    (∀ d : String, validatedJsonCreateTodo none d = .error (400, jsonParseErrorMessage d)) ∧
    (∀ (c : CreateTodo) (d : String), validateCreateTodo c ≠ [] →
      validatedJsonCreateTodo (some c) d =
        .error (400, validationErrorMessage (validateCreateTodo c))) ∧
    (∀ (errs : List String) (p : String),
      validationErrorMessage errs ≠ jsonParseErrorMessage p) ∧
    validatedJsonCreateTodo (some ⟨"", []⟩) "" =
      .error (400, "Validation error: [text: Can not be empty]") := by
  refine ⟨fun d => rfl, ?_, validation_msg_ne_parse_msg, by decide⟩
  intro c d hne
  rw [validatedJsonCreateTodo]
  cases hv : validateCreateTodo c with
  | nil => exact absurd hv hne
  | cons e es => rfl

/-- C9 witness: the empty-text command violates the min-length rule, is
rejected with the aggregated validation message, and that message is not a
parse-error message. -/
theorem c9_witness :
    validateCreateTodo ⟨"", []⟩ ≠ [] ∧
    validatedJsonCreateTodo (some ⟨"", []⟩) "bad" =
      .error (400, validationErrorMessage (validateCreateTodo ⟨"", []⟩)) ∧
    validationErrorMessage (validateCreateTodo ⟨"", []⟩) ≠ jsonParseErrorMessage "bad" :=
  ⟨by decide, c9_validation_gate.2.1 ⟨"", []⟩ "bad" (by decide),
    c9_validation_gate.2.2.1 (validateCreateTodo ⟨"", []⟩) "bad"⟩

lemma create_step (st : DbState) (payload : CreateTodo) :
    TodoRepositoryForDb.create st payload false =
      match TodoRepositoryForDb.find
        (⟨st.todos ++ [⟨st.nextTodoId, payload.text, false⟩], st.labels,
          st.todo_labels ++ payload.labels.map fun lid => (st.nextTodoId, lid),
          st.nextTodoId + 1, st.nextLabelId⟩ : DbState) st.nextTodoId with
      | none => none
      | some (.error err) =>
        some (⟨st.todos ++ [⟨st.nextTodoId, payload.text, false⟩], st.labels,
          st.todo_labels ++ payload.labels.map fun lid => (st.nextTodoId, lid),
          st.nextTodoId + 1, st.nextLabelId⟩, .error err)
      | some (.ok todo) =>
        some (⟨st.todos ++ [⟨st.nextTodoId, payload.text, false⟩], st.labels,
          st.todo_labels ++ payload.labels.map fun lid => (st.nextTodoId, lid),
          st.nextTodoId + 1, st.nextLabelId⟩, .ok todo) := rfl

/-- C8: round trip.  On the in-memory backend, `find` of the id returned by
`create` returns exactly the created entity; on the relational backend, when
`create` succeeds with entity `e`, `find e.id` on the post-create state
returns `e` again (the returned value is itself the result of the re-read, and
the read is deterministic). -/
theorem c8_round_trip :
    (∀ (store : MemStore TodoEntity) (payload : CreateTodo),
      TodoRepositoryForMemory.find (TodoRepositoryForMemory.create store payload).1
        (TodoRepositoryForMemory.create store payload).2.id =
        .ok (TodoRepositoryForMemory.create store payload).2) ∧
    (∀ (st st' : DbState) (payload : CreateTodo) (e : TodoEntity),
      TodoRepositoryForDb.create st payload false = some (st', .ok e) →
      TodoRepositoryForDb.find st' e.id = some (.ok e)) := by
  constructor
  · intro store payload
    have h := memGet_memInsert_self store ((store.length : Int) + 1)
      (⟨(store.length : Int) + 1, payload.text, false, []⟩ : TodoEntity)
    simp only [TodoRepositoryForMemory.create, TodoRepositoryForMemory.find]
    rw [h]
  · intro st st' payload e h
    rw [create_step] at h
    split at h
    · simp at h
    · simp at h
    · rename_i todo heq
      simp only [Option.some.injEq, Prod.mk.injEq, Except.ok.injEq] at h
      obtain ⟨rfl, rfl⟩ := h
      rw [find_ok_id _ _ _ heq]
      exact heq

/-- C8 witness: creating `{text: "a", labels: []}` on the empty database
succeeds with todo `{id 1, text "a", completed false, labels []}`, and `find`
of its id returns the same aggregate. -/
theorem c8_witness :
    TodoRepositoryForDb.create dbEmpty ⟨"a", []⟩ false =
      some (⟨[⟨1, "a", false⟩], [], [], 2, 1⟩, .ok ⟨1, "a", false, []⟩) ∧
    TodoRepositoryForDb.find ⟨[⟨1, "a", false⟩], [], [], 2, 1⟩
      (⟨1, "a", false, []⟩ : TodoEntity).id = some (.ok ⟨1, "a", false, []⟩) ∧
    TodoRepositoryForMemory.find (TodoRepositoryForMemory.create [] ⟨"a", []⟩).1
      (TodoRepositoryForMemory.create [] ⟨"a", []⟩).2.id =
      .ok (TodoRepositoryForMemory.create [] ⟨"a", []⟩).2 :=
  ⟨by decide,
    c8_round_trip.2 dbEmpty ⟨[⟨1, "a", false⟩], [], [], 2, 1⟩ ⟨"a", []⟩
      ⟨1, "a", false, []⟩ (by decide),
    c8_round_trip.1 [] ⟨"a", []⟩⟩

lemma labelCells_of_assoc_map (st : DbState) (i : Int) (ls : List Int)
    (hfilter : st.todo_labels.filter (fun p => p.1 == i) = ls.map fun lid => (i, lid))
    (hres : ∀ lid ∈ ls, ∃ nm, st.labels.filter (fun l => l.id == lid) = [⟨lid, nm⟩]) :
    ∃ labs : List Label,
      (labelCells st i).filterMap cellLabel = labs ∧
      labs.map Label.id = ls ∧ (∀ l ∈ labs, l ∈ st.labels) ∧
      (labelCells st i = [(none, none)] ∨
        ∀ c ∈ labelCells st i, c.1.isSome ∧ c.2.isSome) := by
  cases ls with
  | nil =>
    have hcells : labelCells st i = [(none, none)] := by
      rw [labelCells, hfilter]
      rfl
    refine ⟨[], ?_, rfl, by simp, Or.inl hcells⟩
    rw [hcells]
    rfl
  | cons l0 ls' =>
    obtain ⟨labs, hflat, hids, hmem⟩ := flatMap_assocCells st i (l0 :: ls') hres
    have hcells : labelCells st i = labs.map fun l => (some l.id, some l.name) := by
      rw [labelCells, hfilter]
      exact hflat
    refine ⟨labs, ?_, hids, fun l hl => hmem l hl, Or.inr ?_⟩
    · rw [hcells, filterMap_cellLabel_map]
    · rw [hcells]
      intro c hc
      obtain ⟨l, _, rfl⟩ := List.mem_map.mp hc
      exact ⟨rfl, rfl⟩

/-- C3 counterexample: the in-memory `create` ignores the command's label ids —
creating `{text: "a", labels: [1]}` returns (and stores) a todo whose `labels`
is `[]`; label id 1 is not associated, where the claim requires the returned
hydrated todo to carry it. -/
theorem c3_counterexample :
    (TodoRepositoryForMemory.create [] ⟨"a", [1]⟩).2.labels = [] ∧
    ¬((1 : Int) ∈ (TodoRepositoryForMemory.create [] ⟨"a", [1]⟩).2.labels.map Label.id) := by
  refine ⟨rfl, by decide⟩

/-- C3 (amended): on the relational backend, for a valid CreateTodo command
(next id fresh in both tables, every commanded label id resolving to exactly
one stored label) `create` assigns the next id, persists the text with
completed = false, associates exactly the commanded label ids and returns the
hydrated post-write todo carrying the stored labels of those ids in command
order; the in-memory backend assigns id `size + 1` and persists the text with
completed = false but ignores the command's label ids, storing and returning
`labels = []`. -/
theorem c3_db_create_hydrates_memory_ignores_labels :
    (∀ (st : DbState) (payload : CreateTodo),
      (∀ t ∈ st.todos, t.id ≠ st.nextTodoId) →
      (∀ p ∈ st.todo_labels, p.1 ≠ st.nextTodoId) →
      (∀ lid ∈ payload.labels, ∃ nm, st.labels.filter (fun l => l.id == lid) = [⟨lid, nm⟩]) →
      ∃ e : TodoEntity,
        TodoRepositoryForDb.create st payload false =
          some (⟨st.todos ++ [⟨st.nextTodoId, payload.text, false⟩], st.labels,
            st.todo_labels ++ payload.labels.map (fun lid => (st.nextTodoId, lid)),
            st.nextTodoId + 1, st.nextLabelId⟩, .ok e) ∧
        e.id = st.nextTodoId ∧ e.text = payload.text ∧ e.completed = false ∧
        e.labels.map Label.id = payload.labels ∧ (∀ l ∈ e.labels, l ∈ st.labels)) ∧
    (∀ (store : MemStore TodoEntity) (payload : CreateTodo),
      TodoRepositoryForMemory.create store payload =
        (memInsert store ((store.length : Int) + 1)
            ⟨(store.length : Int) + 1, payload.text, false, []⟩,
          ⟨(store.length : Int) + 1, payload.text, false, []⟩)) := by
  constructor
  · intro st payload hfresh hfresh2 hres
    have hnil_assoc : st.todo_labels.filter (fun p => p.1 == st.nextTodoId) = [] := by
      refine List.filter_eq_nil_iff.mpr fun p hp hbeq => ?_
      exact hfresh2 p hp (by simpa using hbeq)
    have hnil_todos : st.todos.filter (fun t => t.id == st.nextTodoId) = [] := by
      refine List.filter_eq_nil_iff.mpr fun t ht hbeq => ?_
      exact hfresh t ht (by simpa using hbeq)
    have hfilter_assoc : ((st.todo_labels ++ payload.labels.map fun lid =>
        (st.nextTodoId, lid)).filter fun p => p.1 == st.nextTodoId) =
        payload.labels.map fun lid => (st.nextTodoId, lid) := by
      rw [List.filter_append, hnil_assoc, List.nil_append]
      refine List.filter_eq_self.mpr fun a ha => ?_
      obtain ⟨lid, _, rfl⟩ := List.mem_map.mp ha
      simp
    have hfilter_todos : ((st.todos ++ [(⟨st.nextTodoId, payload.text, false⟩ : TodoFromRow)]).filter
        fun t => t.id == st.nextTodoId) = [(⟨st.nextTodoId, payload.text, false⟩ : TodoFromRow)] := by
      rw [List.filter_append, hnil_todos, List.nil_append]
      simp
    obtain ⟨labs, hfm, hids, hmem, hok⟩ := labelCells_of_assoc_map
      (⟨st.todos ++ [⟨st.nextTodoId, payload.text, false⟩], st.labels,
        st.todo_labels ++ payload.labels.map (fun lid => (st.nextTodoId, lid)),
        st.nextTodoId + 1, st.nextLabelId⟩ : DbState) st.nextTodoId payload.labels
      hfilter_assoc hres
    have hfind := find_of_singleton
      (⟨st.todos ++ [⟨st.nextTodoId, payload.text, false⟩], st.labels,
        st.todo_labels ++ payload.labels.map (fun lid => (st.nextTodoId, lid)),
        st.nextTodoId + 1, st.nextLabelId⟩ : DbState) st.nextTodoId
      ⟨st.nextTodoId, payload.text, false⟩ hfilter_todos hok
    refine ⟨⟨st.nextTodoId, payload.text, false, labs⟩, ?_, rfl, rfl, rfl, hids,
      fun l hl => hmem l hl⟩
    rw [create_step, hfind, hfm]
  · intro store payload
    rfl

/-- C3 witness: on a database holding label `{id 7, name "L"}`, creating
`{text: "a", labels: [7]}` persists the base row and one association row and
returns the hydrated todo with the stored label of id 7; the in-memory backend
returns `labels = []` for the same command. -/
theorem c3_witness :
    (∃ e : TodoEntity,
      TodoRepositoryForDb.create ⟨[], [⟨7, "L"⟩], [], 1, 8⟩ ⟨"a", [7]⟩ false =
        some (⟨[⟨1, "a", false⟩], [⟨7, "L"⟩], [(1, 7)], 2, 8⟩, .ok e) ∧
      e.id = 1 ∧ e.text = "a" ∧ e.completed = false ∧
      e.labels.map Label.id = [7] ∧ (∀ l ∈ e.labels, l ∈ [(⟨7, "L"⟩ : Label)])) ∧
    TodoRepositoryForMemory.create [] ⟨"a", [7]⟩ =
      ([(1, ⟨1, "a", false, []⟩)], ⟨1, "a", false, []⟩) := by
  constructor
  · exact c3_db_create_hydrates_memory_ignores_labels.1
      ⟨[], [⟨7, "L"⟩], [], 1, 8⟩ ⟨"a", [7]⟩ (by simp) (by simp)
      (by
        intro lid hlid
        simp only [List.mem_singleton] at hlid
        subst hlid
        exact ⟨"L", by decide⟩)
  · exact (c3_db_create_hydrates_memory_ignores_labels.2 [] ⟨"a", [7]⟩).trans (by decide)


lemma filter_map_id_eq (l : List TodoFromRow) (i : Int) (f : TodoFromRow → TodoFromRow)
    (hf : ∀ t, (f t).id = t.id) :
    (l.map f).filter (fun t => t.id == i) = (l.filter (fun t => t.id == i)).map f := by
  induction l with
  | nil => rfl
  | cons t ts ih =>
    rw [List.map_cons, List.filter_cons, List.filter_cons]
    by_cases h : (t.id == i) = true
    · rw [if_pos (by rw [hf t]; exact h), if_pos h, List.map_cons, ih]
    · rw [if_neg (by rw [hf t]; exact h), if_neg h, ih]

/-- C4 counterexample: the in-memory `update` ignores the command's
`label_ids` and always stores `labels = []`.  Updating todo 1 with
`{completed: true, label_ids: [5]}` returns (and stores) a todo with
`labels = []` — the association set is not replaced by {5} as the claim
requires. -/
theorem c4_counterexample :
    TodoRepositoryForMemory.update [(1, ⟨1, "x", false, []⟩)] 1 ⟨none, some true, some [5]⟩ =
      ([(1, ⟨1, "x", true, []⟩)], .ok ⟨1, "x", true, []⟩) ∧
    ¬((5 : Int) ∈ ((TodoRepositoryForMemory.update [(1, ⟨1, "x", false, []⟩)] 1
      ⟨none, some true, some [5]⟩).2.toOption.map (fun e => e.labels.map Label.id)).getD []) := by
  refine ⟨by decide, by decide⟩

/-- C4 (amended): on the relational backend `update` applies only the fields
present in the command — absent text/completed keep the stored values; when
`label_ids` is present the association rows of the todo are removed and the
given ones inserted (a full replacement), and when absent the association
rows are untouched, so the hydrated label list of the result equals the
pre-update one; the returned value is the post-update hydrated todo.  The
in-memory `update` applies the partial text/completed semantics but ignores
`label_ids` entirely and always resets the stored label list to `[]`. -/
theorem c4_db_update_partial_memory_resets_labels :
    (∀ (st : DbState) (i : Int) (payload : UpdateTodo) (t0 : TodoFromRow),
      payload.labels = none →
      st.todos.filter (fun t => t.id == i) = [t0] →
      (∀ p ∈ st.todo_labels, p.1 = i →
        ∃ nm, st.labels.filter (fun l => l.id == p.2) = [⟨p.2, nm⟩]) →
      TodoRepositoryForDb.find st i =
        some (.ok ⟨i, t0.text, t0.completed, (labelCells st i).filterMap cellLabel⟩) ∧
      TodoRepositoryForDb.update st i payload =
        some (⟨st.todos.map (fun t => if t.id == i then
            ⟨t.id, payload.text.getD t0.text, payload.completed.getD t0.completed⟩ else t),
          st.labels, st.todo_labels, st.nextTodoId, st.nextLabelId⟩,
          .ok ⟨i, payload.text.getD t0.text, payload.completed.getD t0.completed,
            (labelCells st i).filterMap cellLabel⟩)) ∧
    (∀ (st : DbState) (i : Int) (payload : UpdateTodo) (t0 : TodoFromRow) (ls : List Int),
      payload.labels = some ls →
      st.todos.filter (fun t => t.id == i) = [t0] →
      (∀ p ∈ st.todo_labels, p.1 = i →
        ∃ nm, st.labels.filter (fun l => l.id == p.2) = [⟨p.2, nm⟩]) →
      (∀ lid ∈ ls, ∃ nm, st.labels.filter (fun l => l.id == lid) = [⟨lid, nm⟩]) →
      ∃ labs : List Label,
        TodoRepositoryForDb.update st i payload =
          some (⟨st.todos.map (fun t => if t.id == i then
              ⟨t.id, payload.text.getD t0.text, payload.completed.getD t0.completed⟩ else t),
            st.labels,
            (st.todo_labels.filter fun p => !(p.1 == i)) ++ ls.map (fun lid => (i, lid)),
            st.nextTodoId, st.nextLabelId⟩,
            .ok ⟨i, payload.text.getD t0.text, payload.completed.getD t0.completed, labs⟩) ∧
        labs.map Label.id = ls ∧ (∀ l ∈ labs, l ∈ st.labels)) ∧
    (∀ (store : MemStore TodoEntity) (i : Int) (payload : UpdateTodo) (todo : TodoEntity),
      memGet store i = some todo →
      TodoRepositoryForMemory.update store i payload =
        (memInsert store i ⟨i, payload.text.getD todo.text,
            payload.completed.getD todo.completed, []⟩,
          .ok ⟨i, payload.text.getD todo.text, payload.completed.getD todo.completed, []⟩)) := by
  have hf_id : ∀ (i : Int) (payload : UpdateTodo) (old : TodoEntity)
      (t : TodoFromRow), ((if t.id == i then
        (⟨t.id, payload.text.getD old.text, payload.completed.getD old.completed⟩ :
          TodoFromRow) else t)).id = t.id := by
    intro i payload old t
    by_cases h : (t.id == i) = true
    · rw [if_pos h]
    · rw [if_neg h]
  refine ⟨?_, ?_, ?_⟩
  · intro st i payload t0 hnone h1 h2
    have hok := labelCells_ok_of_resolved st i h2
    have hfind_old := find_of_singleton st i t0 h1 hok
    have ht0 := List.mem_filter.mp (h1 ▸ List.mem_cons_self t0 [])
    have hany : (st.todos.any fun t => t.id == i) = true :=
      List.any_eq_true.mpr ⟨t0, ht0.1, ht0.2⟩
    refine ⟨hfind_old, ?_⟩
    have h1' : ((st.todos.map (fun t => if t.id == i then
        (⟨t.id, payload.text.getD t0.text, payload.completed.getD t0.completed⟩ :
          TodoFromRow) else t)).filter (fun t => t.id == i)) =
        [⟨t0.id, payload.text.getD t0.text, payload.completed.getD t0.completed⟩] := by
      rw [filter_map_id_eq _ _ _
        (hf_id i payload ⟨i, t0.text, t0.completed, (labelCells st i).filterMap cellLabel⟩),
        h1, List.map_singleton, if_pos ht0.2]
    have hfind_new := find_of_singleton
      (⟨st.todos.map (fun t => if t.id == i then
          ⟨t.id, payload.text.getD t0.text, payload.completed.getD t0.completed⟩ else t),
        st.labels, st.todo_labels, st.nextTodoId, st.nextLabelId⟩ : DbState) i
      ⟨t0.id, payload.text.getD t0.text, payload.completed.getD t0.completed⟩ h1' hok
    simp only [TodoRepositoryForDb.update, hfind_old, hany, hnone, if_true]
    rw [hfind_new]
    rfl
  · intro st i payload t0 ls hsome h1 h2 hres2
    have hok := labelCells_ok_of_resolved st i h2
    have hfind_old := find_of_singleton st i t0 h1 hok
    have ht0 := List.mem_filter.mp (h1 ▸ List.mem_cons_self t0 [])
    have hany : (st.todos.any fun t => t.id == i) = true :=
      List.any_eq_true.mpr ⟨t0, ht0.1, ht0.2⟩
    have h1' : ((st.todos.map (fun t => if t.id == i then
        (⟨t.id, payload.text.getD t0.text, payload.completed.getD t0.completed⟩ :
          TodoFromRow) else t)).filter (fun t => t.id == i)) =
        [⟨t0.id, payload.text.getD t0.text, payload.completed.getD t0.completed⟩] := by
      rw [filter_map_id_eq _ _ _
        (hf_id i payload ⟨i, t0.text, t0.completed, (labelCells st i).filterMap cellLabel⟩),
        h1, List.map_singleton, if_pos ht0.2]
    have hfilter2 : (((st.todo_labels.filter fun p => !(p.1 == i)) ++
        ls.map (fun lid => (i, lid))).filter fun p => p.1 == i) =
        ls.map (fun lid => (i, lid)) := by
      have hff : ((st.todo_labels.filter fun p => !(p.1 == i)).filter
          fun p => p.1 == i) = [] := by
        refine List.filter_eq_nil_iff.mpr fun p hp hbeq => ?_
        have hm := (List.mem_filter.mp hp).2
        simp at hm hbeq
        exact hm hbeq
      rw [List.filter_append, hff, List.nil_append]
      refine List.filter_eq_self.mpr fun a ha => ?_
      obtain ⟨lid, _, rfl⟩ := List.mem_map.mp ha
      simp
    obtain ⟨labs, hfm, hids, hmem, hok2⟩ := labelCells_of_assoc_map
      (⟨st.todos.map (fun t => if t.id == i then
          ⟨t.id, payload.text.getD t0.text, payload.completed.getD t0.completed⟩ else t),
        st.labels,
        (st.todo_labels.filter fun p => !(p.1 == i)) ++ ls.map (fun lid => (i, lid)),
        st.nextTodoId, st.nextLabelId⟩ : DbState) i ls hfilter2 hres2
    have hfind_new := find_of_singleton
      (⟨st.todos.map (fun t => if t.id == i then
          ⟨t.id, payload.text.getD t0.text, payload.completed.getD t0.completed⟩ else t),
        st.labels,
        (st.todo_labels.filter fun p => !(p.1 == i)) ++ ls.map (fun lid => (i, lid)),
        st.nextTodoId, st.nextLabelId⟩ : DbState) i
      ⟨t0.id, payload.text.getD t0.text, payload.completed.getD t0.completed⟩ h1' hok2
    refine ⟨labs, ?_, hids, fun l hl => hmem l hl⟩
    simp only [TodoRepositoryForDb.update, hfind_old, hany, hsome, if_true]
    rw [hfind_new, hfm]
  · intro store i payload todo h
    simp only [TodoRepositoryForMemory.update, h]

/-- C4 witness: on `dbC4` (todo 1 "x" with label 7), an update carrying only
`completed = true` keeps the text and the label list; an update carrying
`label_ids = []` empties the associations; the in-memory update of a stored
todo applies the partial fields and returns `labels = []`. -/
theorem c4_witness :
    (TodoRepositoryForDb.find dbC4 1 = some (.ok ⟨1, "x", false, [⟨7, "L"⟩]⟩) ∧
      TodoRepositoryForDb.update dbC4 1 ⟨none, some true, none⟩ =
        some (⟨[⟨1, "x", true⟩], [⟨7, "L"⟩], [(1, 7)], 2, 8⟩,
          .ok ⟨1, "x", true, [⟨7, "L"⟩]⟩)) ∧
    (∃ labs : List Label,
      TodoRepositoryForDb.update dbC4 1 ⟨none, none, some []⟩ =
        some (⟨[⟨1, "x", false⟩], [⟨7, "L"⟩], [], 2, 8⟩, .ok ⟨1, "x", false, labs⟩) ∧
      labs.map Label.id = [] ∧ (∀ l ∈ labs, l ∈ dbC4.labels)) ∧
    TodoRepositoryForMemory.update [(1, ⟨1, "x", false, []⟩)] 1 ⟨some "y", none, none⟩ =
      ([(1, ⟨1, "y", false, []⟩)], .ok ⟨1, "y", false, []⟩) := by
  have hres : ∀ p ∈ dbC4.todo_labels, p.1 = (1 : Int) →
      ∃ nm, dbC4.labels.filter (fun l => l.id == p.2) = [⟨p.2, nm⟩] := by
    intro p hp _
    simp only [dbC4, List.mem_singleton] at hp
    subst hp
    exact ⟨"L", by decide⟩
  refine ⟨?_, ?_, ?_⟩
  · have h := c4_db_update_partial_memory_resets_labels.1 dbC4 1 ⟨none, some true, none⟩
      ⟨1, "x", false⟩ rfl (by decide) hres
    exact ⟨h.1.trans (by decide), h.2.trans (by decide)⟩
  · obtain ⟨labs, hupd, hids, hmem⟩ :=
      c4_db_update_partial_memory_resets_labels.2.1 dbC4 1 ⟨none, none, some []⟩
        ⟨1, "x", false⟩ [] rfl (by decide) hres (by simp)
    exact ⟨labs, hupd, hids, hmem⟩
  · exact (c4_db_update_partial_memory_resets_labels.2.2 [(1, ⟨1, "x", false, []⟩)] 1
      ⟨some "y", none, none⟩ ⟨1, "x", false, []⟩ (by decide)).trans (by decide)

end RustWebapp